import Mathlib

/-!
Verification of the natural-language specification of
`src/heat/LinearHeatConduction.cc` (2-D/3-D SIMP topology optimization,
linear heat conduction) against a shallow embedding of its code.

Machine floating-point scalars (`PetscScalar`) are modelled as exact
rationals; the SIMP penalty exponent is modelled as a natural number
(the code only ever raises densities to a constant monomial power).
Distributed vectors and sparse matrices are modelled as total functions
from indices to rationals; the PETSc vector/matrix calls used by the
code (`VecSetValuesLocal` with `ADD_VALUES`, `MatSetValuesLocal`,
`MatDiagonalScale`, `MatDiagonalSet`, `VecPointwiseMult`, `VecShift`,
`VecScale`, `VecSum`) are given their documented pointwise semantics.
Loops over elements or vector entries are embedded as left folds in
source order.
-/

namespace LinearHeatConductionModel

/-- Accumulation of matrix-shaped contributions in a left fold, as done by
repeated `ADD_VALUES` insertions: each list entry adds its contribution
pointwise onto the running matrix. -/
def foldAddMat {α ι κ : Type} (f : α → ι → κ → ℚ) (l : List α)
    (M0 : ι → κ → ℚ) : ι → κ → ℚ :=
  l.foldl (fun M a => fun r c => M r c + f a r c) M0

/-- Accumulation of vector-shaped contributions in a left fold. -/
def foldAddVec {α : Type} (f : α → ℕ → ℚ) (l : List α)
    (v0 : ℕ → ℚ) : ℕ → ℚ :=
  l.foldl (fun v a => fun r => v r + f a r) v0

theorem foldAddMat_apply {α ι κ : Type} (f : α → ι → κ → ℚ) (l : List α)
    (M0 : ι → κ → ℚ) (r : ι) (c : κ) :
    foldAddMat f l M0 r c = M0 r c + (l.map (fun a => f a r c)).sum := by
  induction l generalizing M0 with
  | nil => simp [foldAddMat]
  | cons a t ih =>
      simp only [foldAddMat, List.foldl_cons, List.map_cons, List.sum_cons]
      rw [show (List.foldl (fun M a => fun r c => M r c + f a r c)
            (fun r c => M0 r c + f a r c) t) = foldAddMat f t
            (fun r c => M0 r c + f a r c) from rfl, ih]
      ring

theorem foldAddVec_apply {α : Type} (f : α → ℕ → ℚ) (l : List α)
    (v0 : ℕ → ℚ) (r : ℕ) :
    foldAddVec f l v0 r = v0 r + (l.map (fun a => f a r)).sum := by
  induction l generalizing v0 with
  | nil => simp [foldAddVec]
  | cons a t ih =>
      simp only [foldAddVec, List.foldl_cons, List.map_cons, List.sum_cons]
      rw [show (List.foldl (fun v a => fun r => v r + f a r)
            (fun r => v0 r + f a r) t) = foldAddVec f t
            (fun r => v0 r + f a r) from rfl, ih]
      ring

theorem list_range_map_sum (f : ℕ → ℚ) (n : ℕ) :
    ((List.range n).map f).sum = ∑ i in Finset.range n, f i := by
  induction n with
  | zero => simp
  | succ m ih =>
      rw [List.range_succ, List.map_append, List.sum_append,
        Finset.sum_range_succ, ih]
      simp

/-! ## Matrix assembler (`AssembleConductivityMatrix`)

The element loop computes `dens = Emin + xPhys[i]^penal * (Emax - Emin)`,
scales the cached element matrix `KE` by it and inserts the scaled matrix
with `ADD_VALUES` at the element's degree-of-freedom indices
`edof[j] = necon[i*nen+j]`.  A single `MatSetValuesLocal` call adds, to
every global entry `(r, c)`, the sum of `ke[k][h]` over the local index
pairs `(k, h)` with `edof[k] = r` and `edof[h] = c`. -/

/-- SIMP interpolation of the per-element conductivity,
`dens = Emin + xPhys[i]^penal * (Emax - Emin)` (line 719 of the source). -/
def simpInterp (Emin Emax : ℚ) (penal : ℕ) (x : ℚ) : ℚ :=
  Emin + x ^ penal * (Emax - Emin)

/-- Contribution of element `i` to global entry `(r, c)`: the scaled
element matrix inserted at the element's dof indices with `ADD_VALUES`. -/
def elemContrib (nedof : ℕ) (necon : ℕ → ℕ → ℕ) (KE : ℕ → ℕ → ℚ)
    (dens : ℕ → ℚ) (i r c : ℕ) : ℚ :=
  ∑ k in Finset.range nedof, ∑ h in Finset.range nedof,
    if necon i k = r ∧ necon i h = c then dens i * KE k h else 0

/-- `MatZeroEntries` (line 705): all entries of the previous matrix are
discarded. -/
def matZeroEntries (_Kprev : ℕ → ℕ → ℚ) : ℕ → ℕ → ℚ := fun _ _ => 0

/-- The element-assembly loop of `AssembleConductivityMatrix`
(lines 705-728): zero the matrix, then for every element add the
SIMP-scaled cached element matrix at its dof indices. -/
def assembleK (nel nedof : ℕ) (necon : ℕ → ℕ → ℕ) (KE : ℕ → ℕ → ℚ)
    (xPhys : ℕ → ℚ) (Emin Emax : ℚ) (penal : ℕ)
    (Kprev : ℕ → ℕ → ℚ) : ℕ → ℕ → ℚ :=
  foldAddMat
    (elemContrib nedof necon KE (fun i => simpInterp Emin Emax penal (xPhys i)))
    (List.range nel) (matZeroEntries Kprev)

/-- Dirichlet elimination on the matrix (lines 730-738):
`MatDiagonalScale (K, N, N)` followed by `MatDiagonalSet (K, 1 - N,
ADD_VALUES)`, i.e. `K := diag(N)*K*diag(N) + diag(1 - N)`. -/
def dirichletK (K : ℕ → ℕ → ℚ) (N : ℕ → ℚ) : ℕ → ℕ → ℚ :=
  fun r c => N r * K r c * N c + (if r = c then 1 - N r else 0)

/-- Dirichlet masking of the load vector (line 742):
`VecPointwiseMult (RHS, RHS, N)`. -/
def dirichletRHS (RHS N : ℕ → ℚ) : ℕ → ℚ := fun r => RHS r * N r

/-- `AssembleConductivityMatrix` (lines 684-749): element assembly from a
zeroed matrix, then Dirichlet elimination on the matrix and on the load
vector.  Returns the final matrix and load vector. -/
def AssembleConductivityMatrix (nel nedof : ℕ) (necon : ℕ → ℕ → ℕ)
    (KE : ℕ → ℕ → ℚ) (xPhys : ℕ → ℚ) (Emin Emax : ℚ) (penal : ℕ)
    (Kprev : ℕ → ℕ → ℚ) (N RHS : ℕ → ℚ) : ((ℕ → ℕ → ℚ) × (ℕ → ℚ)) :=
  (dirichletK (assembleK nel nedof necon KE xPhys Emin Emax penal Kprev) N,
   dirichletRHS RHS N)

theorem assembleK_eq_sum (nel nedof : ℕ) (necon : ℕ → ℕ → ℕ)
    (KE : ℕ → ℕ → ℚ) (xPhys : ℕ → ℚ) (Emin Emax : ℚ) (penal : ℕ)
    (Kprev : ℕ → ℕ → ℚ) (r c : ℕ) :
    assembleK nel nedof necon KE xPhys Emin Emax penal Kprev r c =
      ∑ i in Finset.range nel,
        elemContrib nedof necon KE
          (fun i => simpInterp Emin Emax penal (xPhys i)) i r c := by
  rw [assembleK, foldAddMat_apply, list_range_map_sum]
  simp [matZeroEntries]

/-- C1: for every density field, `Emin`, `Emax` and penalty exponent, the
element loop of `AssembleConductivityMatrix` first zeroes the global
matrix (the result is independent of the previous matrix `Kprev`, entering
only through `matZeroEntries`) and then adds, for every element `i`, the
cached element matrix `KE` scaled by `Emin + xPhys[i]^penal*(Emax - Emin)`
at that element's dof indices, so that after assembly (before Dirichlet
elimination) every entry `(r, c)` is the sum over all elements of the
scaled contributions at local index pairs mapping to `(r, c)`; the full
call then applies Dirichlet elimination to exactly this matrix. -/
theorem C1_assembly_is_sum_of_scaled_contributions
    (nel nedof : ℕ) (necon : ℕ → ℕ → ℕ) (KE : ℕ → ℕ → ℚ) (xPhys : ℕ → ℚ)
    (Emin Emax : ℚ) (penal : ℕ) (Kprev : ℕ → ℕ → ℚ) (N RHS : ℕ → ℚ)
    (r c : ℕ) :
    (assembleK nel nedof necon KE xPhys Emin Emax penal Kprev r c =
      ∑ i in Finset.range nel,
        ∑ k in Finset.range nedof, ∑ h in Finset.range nedof,
          if necon i k = r ∧ necon i h = c then
            (Emin + xPhys i ^ penal * (Emax - Emin)) * KE k h
          else 0) ∧
    (AssembleConductivityMatrix nel nedof necon KE xPhys Emin Emax penal
        Kprev N RHS).1 =
      dirichletK (assembleK nel nedof necon KE xPhys Emin Emax penal Kprev)
        N := by
  refine ⟨?_, rfl⟩
  rw [assembleK_eq_sum]
  rfl

/-- C2: after `AssembleConductivityMatrix`, every node with Dirichlet mask
entry `0` has an identity row and column in the final matrix (diagonal
`1`, off-diagonals `0`) and a zero load entry; the transformation applied
is exactly `K := diag(N)*K*diag(N) + diag(1 - N)` and `RHS := RHS .* N`;
and entries coupling two nodes with mask value `1` are unchanged from the
assembled matrix, as are load entries at mask-`1` nodes. -/
theorem C2_dirichlet_elimination
    (nel nedof : ℕ) (necon : ℕ → ℕ → ℕ) (KE : ℕ → ℕ → ℚ) (xPhys : ℕ → ℚ)
    (Emin Emax : ℚ) (penal : ℕ) (Kprev : ℕ → ℕ → ℚ) (N RHS : ℕ → ℚ) :
    (∀ r, N r = 0 →
      (AssembleConductivityMatrix nel nedof necon KE xPhys Emin Emax penal
          Kprev N RHS).1 r r = 1 ∧
      (AssembleConductivityMatrix nel nedof necon KE xPhys Emin Emax penal
          Kprev N RHS).2 r = 0 ∧
      (∀ c, c ≠ r →
        (AssembleConductivityMatrix nel nedof necon KE xPhys Emin Emax penal
            Kprev N RHS).1 r c = 0 ∧
        (AssembleConductivityMatrix nel nedof necon KE xPhys Emin Emax penal
            Kprev N RHS).1 c r = 0)) ∧
    ((AssembleConductivityMatrix nel nedof necon KE xPhys Emin Emax penal
        Kprev N RHS).1 =
      dirichletK (assembleK nel nedof necon KE xPhys Emin Emax penal Kprev) N
      ∧
      (AssembleConductivityMatrix nel nedof necon KE xPhys Emin Emax penal
        Kprev N RHS).2 = dirichletRHS RHS N) ∧
    (∀ r c, N r = 1 → N c = 1 →
      (AssembleConductivityMatrix nel nedof necon KE xPhys Emin Emax penal
          Kprev N RHS).1 r c =
        assembleK nel nedof necon KE xPhys Emin Emax penal Kprev r c) ∧
    (∀ r, N r = 1 →
      (AssembleConductivityMatrix nel nedof necon KE xPhys Emin Emax penal
          Kprev N RHS).2 r = RHS r) := by
  refine ⟨?_, ⟨rfl, rfl⟩, ?_, ?_⟩
  · intro r hr
    refine ⟨?_, ?_, ?_⟩
    · simp [AssembleConductivityMatrix, dirichletK, hr]
    · simp [AssembleConductivityMatrix, dirichletRHS, hr]
    · intro c hc
      constructor
      · simp [AssembleConductivityMatrix, dirichletK, hr, (Ne.symm hc)]
      · rcases eq_or_ne (N c) 0 with h0 | h0
        · simp [AssembleConductivityMatrix, dirichletK, hr, h0, hc]
        · simp [AssembleConductivityMatrix, dirichletK, hr, hc]
  · intro r c hr hc
    rcases eq_or_ne r c with h | h
    · subst h; simp [AssembleConductivityMatrix, dirichletK, hr]
    · simp [AssembleConductivityMatrix, dirichletK, hr, hc, h]
  · intro r hr
    simp [AssembleConductivityMatrix, dirichletRHS, hr]

/-- Witness for C2 at a concrete instance: a 1-element mesh on nodes
`{0, 1}` with node `0` fixed (`N 0 = 0`) and node `1` free. -/
theorem C2_dirichlet_elimination_witness :
    ((fun r : ℕ => if r = 0 then (0 : ℚ) else 1) 0 = 0 ∧
      (AssembleConductivityMatrix 1 2 (fun _ j => j) (fun _ _ => 1)
          (fun _ => 1) 0 1 3 (fun _ _ => 5)
          (fun r => if r = 0 then 0 else 1) (fun _ => 7)).1 0 0 = 1) ∧
    ((fun r : ℕ => if r = 0 then (0 : ℚ) else 1) 1 = 1 ∧
      (AssembleConductivityMatrix 1 2 (fun _ j => j) (fun _ _ => 1)
          (fun _ => 1) 0 1 3 (fun _ _ => 5)
          (fun r => if r = 0 then 0 else 1) (fun _ => 7)).2 1 = 7) := by
  constructor
  · exact ⟨by decide,
      ((C2_dirichlet_elimination 1 2 (fun _ j => j) (fun _ _ => 1)
          (fun _ => 1) 0 1 3 (fun _ _ => 5)
          (fun r => if r = 0 then 0 else 1) (fun _ => 7)).1 0
        (by decide)).1⟩
  · exact ⟨by decide,
      (C2_dirichlet_elimination 1 2 (fun _ j => j) (fun _ _ => 1)
          (fun _ => 1) 0 1 3 (fun _ _ => 5)
          (fun r => if r = 0 then 0 else 1) (fun _ => 7)).2.2.2 1
        (by decide)⟩

/-! ## Objective and sensitivity loop
(`ComputeObjectiveConstraintsSensitivities`, lines 547-574)

The element loop accumulates the thermal-compliance objective `fx` and
writes the per-element sensitivity `df`.  The temperature field `up` is
the solver output, here an input of the embedding (the solve itself is a
call into the external linear-algebra library). -/

/-- Inputs of the sensitivity element loop. -/
structure SensCtx where
  nedof : ℕ
  necon : ℕ → ℕ → ℕ
  KE : ℕ → ℕ → ℚ
  up : ℕ → ℚ
  x : ℕ → ℚ
  x0 : ℕ → ℚ
  x1 : ℕ → ℚ
  x2 : ℕ → ℚ
  Emin : ℚ
  Emax : ℚ
  penal : ℕ

/-- The quadratic form `uKu = sum_k sum_h up[edof k] * KE[k][h] * up[edof h]`
over element `i` (lines 558-563). -/
def uKu (c : SensCtx) (i : ℕ) : ℚ :=
  ∑ k in Finset.range c.nedof, ∑ h in Finset.range c.nedof,
    c.up (c.necon i k) * c.KE k h * c.up (c.necon i h)

/-- One iteration of the sensitivity element loop (lines 549-574): free
elements (all three passive flags zero) add the SIMP-interpolated
compliance to `fx` and write the SIMP sensitivity into `df[i]`; otherwise
a solid-flagged element writes `+1e9`, then a fixed- or loaded-flagged
element writes `-1e9`; any other element leaves `df[i]` untouched. -/
def sensStep (c : SensCtx) (st : ℚ × (ℕ → ℚ)) (i : ℕ) : ℚ × (ℕ → ℚ) :=
  if c.x0 i = 0 ∧ c.x1 i = 0 ∧ c.x2 i = 0 then
    (st.1 + simpInterp c.Emin c.Emax c.penal (c.x i) * uKu c i,
     Function.update st.2 i
       ((-1 : ℚ) * (c.penal : ℚ) * c.x i ^ (c.penal - 1) *
         (c.Emax - c.Emin) * uKu c i))
  else if c.x0 i = 1 then (st.1, Function.update st.2 i (10 ^ 9))
  else if c.x1 i = 1 ∨ c.x2 i = 1 then
    (st.1, Function.update st.2 i (-(10 ^ 9)))
  else st

/-- The whole element loop: `fx` starts at `0` (line 547) and `df` starts
from the array contents handed out by `VecGetArray (dfdx)`, i.e. the
previous sensitivity values `df0`. -/
def sensLoop (c : SensCtx) (nel : ℕ) (df0 : ℕ → ℚ) : ℚ × (ℕ → ℚ) :=
  (List.range nel).foldl (sensStep c) (0, df0)

/-- The value the loop body stores into `df[i]`, as a function of the
value previously there. -/
def dfWrite (c : SensCtx) (i : ℕ) (old : ℚ) : ℚ :=
  if c.x0 i = 0 ∧ c.x1 i = 0 ∧ c.x2 i = 0 then
    (-1 : ℚ) * (c.penal : ℚ) * c.x i ^ (c.penal - 1) *
      (c.Emax - c.Emin) * uKu c i
  else if c.x0 i = 1 then 10 ^ 9
  else if c.x1 i = 1 ∨ c.x2 i = 1 then -(10 ^ 9)
  else old

theorem sensStep_fst (c : SensCtx) (st : ℚ × (ℕ → ℚ)) (i : ℕ) :
    (sensStep c st i).1 = st.1 +
      (if c.x0 i = 0 ∧ c.x1 i = 0 ∧ c.x2 i = 0 then
        simpInterp c.Emin c.Emax c.penal (c.x i) * uKu c i else 0) := by
  by_cases h : c.x0 i = 0 ∧ c.x1 i = 0 ∧ c.x2 i = 0
  · simp [sensStep, h]
  · by_cases h0 : c.x0 i = 1
    · simp [sensStep, h, h0]
    · by_cases h12 : c.x1 i = 1 ∨ c.x2 i = 1
      · simp [sensStep, h, h0, h12]
      · simp [sensStep, h, h0, h12]

theorem sensStep_snd_ne (c : SensCtx) (st : ℚ × (ℕ → ℚ)) (i j : ℕ)
    (hij : j ≠ i) : (sensStep c st i).2 j = st.2 j := by
  by_cases h : c.x0 i = 0 ∧ c.x1 i = 0 ∧ c.x2 i = 0
  · simp [sensStep, h, Function.update_noteq hij]
  · by_cases h0 : c.x0 i = 1
    · simp [sensStep, h, h0, Function.update_noteq hij]
    · by_cases h12 : c.x1 i = 1 ∨ c.x2 i = 1
      · simp [sensStep, h, h0, h12, Function.update_noteq hij]
      · simp [sensStep, h, h0, h12]

theorem sensStep_snd_self (c : SensCtx) (st : ℚ × (ℕ → ℚ)) (i : ℕ) :
    (sensStep c st i).2 i = dfWrite c i (st.2 i) := by
  by_cases h : c.x0 i = 0 ∧ c.x1 i = 0 ∧ c.x2 i = 0
  · simp [sensStep, dfWrite, h]
  · by_cases h0 : c.x0 i = 1
    · simp [sensStep, dfWrite, h, h0]
    · by_cases h12 : c.x1 i = 1 ∨ c.x2 i = 1
      · simp [sensStep, dfWrite, h, h0, h12]
      · simp [sensStep, dfWrite, h, h0, h12]

theorem sensFold_fst (c : SensCtx) (l : List ℕ) (st : ℚ × (ℕ → ℚ)) :
    (l.foldl (sensStep c) st).1 = st.1 +
      (l.map (fun i =>
        if c.x0 i = 0 ∧ c.x1 i = 0 ∧ c.x2 i = 0 then
          simpInterp c.Emin c.Emax c.penal (c.x i) * uKu c i else 0)).sum := by
  induction l generalizing st with
  | nil => simp
  | cons i t ih =>
      simp only [List.foldl_cons, List.map_cons, List.sum_cons]
      rw [ih, sensStep_fst]
      ring

theorem sensFold_snd_notin (c : SensCtx) (l : List ℕ) (st : ℚ × (ℕ → ℚ))
    (j : ℕ) (hj : j ∉ l) : (l.foldl (sensStep c) st).2 j = st.2 j := by
  induction l generalizing st with
  | nil => simp
  | cons i t ih =>
      simp only [List.foldl_cons]
      rw [ih _ (fun h => hj (List.mem_cons_of_mem i h)),
        sensStep_snd_ne c st i j (fun h => hj (h ▸ List.mem_cons_self i t))]

theorem sensLoop_snd (c : SensCtx) (nel : ℕ) (df0 : ℕ → ℚ) (i : ℕ)
    (hi : i < nel) : (sensLoop c nel df0).2 i = dfWrite c i (df0 i) := by
  induction nel with
  | zero => omega
  | succ n ih =>
      rw [sensLoop, List.range_succ, List.foldl_append, List.foldl_cons,
        List.foldl_nil]
      rcases Nat.lt_or_ge i n with h | h
      · rw [sensStep_snd_ne _ _ _ _ (by omega)]
        exact ih h
      · have hin : i = n := by omega
        subst hin
        rw [sensStep_snd_self]
        have : ((List.range i).foldl (sensStep c) (0, df0)).2 i = df0 i :=
          sensFold_snd_notin c _ _ i (by simp)
        rw [this]

theorem sensLoop_fst (c : SensCtx) (nel : ℕ) (df0 : ℕ → ℚ) :
    (sensLoop c nel df0).1 =
      ∑ i in Finset.range nel,
        if c.x0 i = 0 ∧ c.x1 i = 0 ∧ c.x2 i = 0 then
          simpInterp c.Emin c.Emax c.penal (c.x i) * uKu c i else 0 := by
  rw [sensLoop, sensFold_fst, list_range_map_sum]
  simp

/-- C3: a free element (all three passive flags zero) contributes
`(Emin + x^penal*(Emax - Emin))*uKu` to the objective and gets sensitivity
`-penal * x^(penal-1) * (Emax - Emin) * uKu`; the final objective is the
sum of exactly these contributions, flagged elements contributing
nothing. -/
theorem C3_free_element_objective_and_sensitivity (c : SensCtx) (nel : ℕ)
    (df0 : ℕ → ℚ) (i : ℕ) (hi : i < nel) (h0 : c.x0 i = 0) (h1 : c.x1 i = 0)
    (h2 : c.x2 i = 0) :
    (sensLoop c nel df0).2 i =
      -((c.penal : ℚ) * c.x i ^ (c.penal - 1) * (c.Emax - c.Emin) * uKu c i)
      ∧
    (sensLoop c nel df0).1 =
      ∑ j in Finset.range nel,
        if c.x0 j = 0 ∧ c.x1 j = 0 ∧ c.x2 j = 0 then
          (c.Emin + c.x j ^ c.penal * (c.Emax - c.Emin)) * uKu c j
        else 0 := by
  constructor
  · rw [sensLoop_snd c nel df0 i hi, dfWrite, if_pos ⟨h0, h1, h2⟩]
    ring
  · rw [sensLoop_fst]
    rfl

/-- Witness for C3: a single free element on a 2-node mesh with density
`1/2`, penalty `3`, `Emin = 0`, `Emax = 1`, unit temperatures. -/
theorem C3_free_element_objective_and_sensitivity_witness :
    (0 < 1 ∧ (0 : ℚ) = 0) ∧
    ((sensLoop ⟨2, fun _ j => j, fun _ _ => 1, fun _ => 1, fun _ => 1 / 2,
        fun _ => 0, fun _ => 0, fun _ => 0, 0, 1, 3⟩ 1 (fun _ => 0)).2 0 =
      -((3 : ℚ) * (1 / 2 : ℚ) ^ (3 - 1) * ((1 : ℚ) - 0) *
        uKu ⟨2, fun _ j => j, fun _ _ => 1, fun _ => 1, fun _ => 1 / 2,
          fun _ => 0, fun _ => 0, fun _ => 0, 0, 1, 3⟩ 0)) := by
  refine ⟨⟨by decide, by decide⟩, ?_⟩
  exact (C3_free_element_objective_and_sensitivity
    ⟨2, fun _ j => j, fun _ _ => 1, fun _ => 1, fun _ => 1 / 2,
      fun _ => 0, fun _ => 0, fun _ => 0, 0, 1, 3⟩ 1 (fun _ => 0) 0
    (by decide) (by decide) (by decide) (by decide)).1

/-- C4 as stated is false: an element carrying both the solid flag and the
fixed flag gets sensitivity `+1e9` from the solid branch, not the `-1e9`
the claim assigns to every fixed-flagged element.  Concrete input: one
element with `xPassive0 = xPassive1 = 1`. -/
theorem C4_counterexample :
    (fun _ : ℕ => (1 : ℚ)) 0 = 1 ∧
    (sensLoop ⟨2, fun _ j => j, fun _ _ => 1, fun _ => 1, fun _ => 1 / 2,
        fun _ => 1, fun _ => 1, fun _ => 0, 0, 1, 3⟩ 1 (fun _ => 0)).2 0 =
      10 ^ 9 ∧
    ((10 : ℚ) ^ 9) ≠ -(10 ^ 9) := by
  refine ⟨rfl, ?_, by norm_num⟩
  decide

/-- C4 amended: an element with the solid flag set (`xPassive0 = 1`) gets
sensitivity exactly `+1e9` regardless of density, temperature and the
other flags; an element whose solid flag is not `1` and whose fixed or
loaded flag is `1` gets exactly `-1e9` regardless of density and
temperature. -/
theorem C4_passive_sentinel_sensitivities (c : SensCtx) (nel : ℕ)
    (df0 : ℕ → ℚ) (i : ℕ) (hi : i < nel) :
    (c.x0 i = 1 → (sensLoop c nel df0).2 i = 10 ^ 9) ∧
    (c.x0 i ≠ 1 → (c.x1 i = 1 ∨ c.x2 i = 1) →
      (sensLoop c nel df0).2 i = -(10 ^ 9)) := by
  rw [sensLoop_snd c nel df0 i hi]
  constructor
  · intro h0
    rw [dfWrite, if_neg (by simp [h0]), if_pos h0]
  · intro h0 h12
    have hfree : ¬(c.x0 i = 0 ∧ c.x1 i = 0 ∧ c.x2 i = 0) := by
      rcases h12 with h | h <;> simp [h]
    rw [dfWrite, if_neg hfree, if_neg h0, if_pos h12]

/-- Witness for the amended C4: a solid-flagged element receives `+1e9`
and a fixed-flagged element receives `-1e9`. -/
theorem C4_passive_sentinel_sensitivities_witness :
    ((fun _ : ℕ => (1 : ℚ)) 0 = 1 ∧
      (sensLoop ⟨2, fun _ j => j, fun _ _ => 1, fun _ => 1, fun _ => 1 / 2,
          fun _ => 1, fun _ => 0, fun _ => 0, 0, 1, 3⟩ 1 (fun _ => 0)).2 0 =
        10 ^ 9) ∧
    ((fun _ : ℕ => (0 : ℚ)) 0 ≠ 1 ∧
      (sensLoop ⟨2, fun _ j => j, fun _ _ => 1, fun _ => 1, fun _ => 1 / 2,
          fun _ => 0, fun _ => 1, fun _ => 0, 0, 1, 3⟩ 1 (fun _ => 0)).2 0 =
        -(10 ^ 9)) := by
  constructor
  · exact ⟨rfl,
      (C4_passive_sentinel_sensitivities
        ⟨2, fun _ j => j, fun _ _ => 1, fun _ => 1, fun _ => 1 / 2,
          fun _ => 1, fun _ => 0, fun _ => 0, 0, 1, 3⟩ 1 (fun _ => 0) 0
        (by decide)).1 rfl⟩
  · exact ⟨by decide,
      (C4_passive_sentinel_sensitivities
        ⟨2, fun _ j => j, fun _ _ => 1, fun _ => 1, fun _ => 1 / 2,
          fun _ => 0, fun _ => 1, fun _ => 0, 0, 1, 3⟩ 1 (fun _ => 0) 0
        (by decide)).2 (by decide) (Or.inl rfl)⟩

/-- C10: the passive branches are mutually exclusive with the solid branch
taking precedence (`xPassive0 = 1` forces `+1e9` even when `xPassive1` or
`xPassive2` is also `1`), and an element whose flags are not all zero but
none of which equals exactly `1` leaves its `df` entry at the previous
value. -/
theorem C10_branch_precedence_and_unwritten (c : SensCtx) (nel : ℕ)
    (df0 : ℕ → ℚ) (i : ℕ) (hi : i < nel) :
    (c.x0 i = 1 → (sensLoop c nel df0).2 i = 10 ^ 9) ∧
    (¬(c.x0 i = 0 ∧ c.x1 i = 0 ∧ c.x2 i = 0) →
      c.x0 i ≠ 1 → c.x1 i ≠ 1 → c.x2 i ≠ 1 →
      (sensLoop c nel df0).2 i = df0 i) := by
  rw [sensLoop_snd c nel df0 i hi]
  constructor
  · intro h0
    rw [dfWrite, if_neg (by simp [h0]), if_pos h0]
  · intro hnf h0 h1 h2
    rw [dfWrite, if_neg hnf, if_neg h0, if_neg (by simp [h1, h2])]

/-- Witness for C10: an element with both solid and fixed flags set gets
`+1e9`, and an element with flag value `2` on `xPassive0` is left
unwritten (keeps the previous `df` value `42`). -/
theorem C10_branch_precedence_and_unwritten_witness :
    ((fun _ : ℕ => (1 : ℚ)) 0 = 1 ∧
      (sensLoop ⟨2, fun _ j => j, fun _ _ => 1, fun _ => 1, fun _ => 1 / 2,
          fun _ => 1, fun _ => 1, fun _ => 0, 0, 1, 3⟩ 1 (fun _ => 0)).2 0 =
        10 ^ 9) ∧
    (sensLoop ⟨2, fun _ j => j, fun _ _ => 1, fun _ => 1, fun _ => 1 / 2,
        fun _ => 2, fun _ => 0, fun _ => 0, 0, 1, 3⟩ 1 (fun _ => 42)).2 0 =
      42 := by
  constructor
  · exact ⟨rfl,
      (C10_branch_precedence_and_unwritten
        ⟨2, fun _ j => j, fun _ _ => 1, fun _ => 1, fun _ => 1 / 2,
          fun _ => 1, fun _ => 1, fun _ => 0, 0, 1, 3⟩ 1 (fun _ => 0) 0
        (by decide)).1 rfl⟩
  · exact (C10_branch_precedence_and_unwritten
      ⟨2, fun _ j => j, fun _ _ => 1, fun _ => 1, fun _ => 1 / 2,
        fun _ => 2, fun _ => 0, fun _ => 0, 0, 1, 3⟩ 1 (fun _ => 42) 0
      (by decide)).2 (by decide) (by decide) (by decide) (by decide)

/-! ## Volume constraint
(`ComputeObjectiveConstraintsSensitivities`, lines 582-624)

The code builds three mask vectors `1 - xPassive*` via `VecShift (-1)`
followed by `VecScale (-1)`, multiplies the density field pointwise by all
three, sums, and divides by the designable count
`neltot - sum(xPassive0) - sum(xPassive1) - sum(xPassive2)`. -/

/-- `VecShift`: add a scalar to every entry. -/
def vecShift (v : ℕ → ℚ) (s : ℚ) : ℕ → ℚ := fun i => v i + s

/-- `VecScale`: multiply every entry by a scalar. -/
def vecScale (a : ℚ) (v : ℕ → ℚ) : ℕ → ℚ := fun i => a * v i

/-- `VecPointwiseMult`: entrywise product. -/
def vecPointwiseMult (u v : ℕ → ℚ) : ℕ → ℚ := fun i => u i * v i

/-- `VecSum` on a length-`n` vector. -/
def vecSum (n : ℕ) (v : ℕ → ℚ) : ℚ := ∑ i in Finset.range n, v i

/-- The volume-constraint part of
`ComputeObjectiveConstraintsSensitivities` (lines 582-624): returns the
constraint residual `gx` and its sensitivity vector `dgdx`. -/
def volumeConstraint (nel : ℕ) (x x0 x1 x2 : ℕ → ℚ) (volfrac : ℚ) :
    ℚ × (ℕ → ℚ) :=
  let t0 := vecScale (-1) (vecShift x0 (-1))
  let t1 := vecScale (-1) (vecShift x1 (-1))
  let t2 := vecScale (-1) (vecShift x2 (-1))
  let tmpx := vecPointwiseMult (vecPointwiseMult (vecPointwiseMult x t0) t1) t2
  let n0 := vecSum nel x0
  let n1 := vecSum nel x1
  let n2 := vecSum nel x2
  let gx := vecSum nel tmpx / ((nel : ℚ) - n0 - n1 - n2) - volfrac
  let dgdx := vecPointwiseMult (vecPointwiseMult (vecPointwiseMult
    (fun _ => 1 / ((nel : ℚ) - n0 - n1 - n2)) t0) t1) t2
  (gx, dgdx)

/-- C5: with boolean (0/1-valued) passive flags, the volume constraint is
the sum of the densities of the elements whose three flags are all zero,
divided by `neltot - sum(xPassive0) - sum(xPassive1) - sum(xPassive2)`,
minus `volfrac`; its sensitivity is uniformly `1/(that count)` on free
elements and `0` on any element with a nonzero flag; and with a uniform
density equal to `volfrac` and all flags zero on a nonempty domain the
constraint evaluates to `0`. -/
theorem C5_volume_constraint (nel : ℕ) (x x0 x1 x2 : ℕ → ℚ) (volfrac : ℚ)
    (h0 : ∀ i, x0 i = 0 ∨ x0 i = 1) (h1 : ∀ i, x1 i = 0 ∨ x1 i = 1)
    (h2 : ∀ i, x2 i = 0 ∨ x2 i = 1) :
    ((volumeConstraint nel x x0 x1 x2 volfrac).1 =
      (∑ i in Finset.range nel,
        if x0 i = 0 ∧ x1 i = 0 ∧ x2 i = 0 then x i else 0) /
        ((nel : ℚ) - vecSum nel x0 - vecSum nel x1 - vecSum nel x2)
        - volfrac) ∧
    (∀ i, x0 i = 0 → x1 i = 0 → x2 i = 0 →
      (volumeConstraint nel x x0 x1 x2 volfrac).2 i =
        1 / ((nel : ℚ) - vecSum nel x0 - vecSum nel x1 - vecSum nel x2)) ∧
    (∀ i, (x0 i ≠ 0 ∨ x1 i ≠ 0 ∨ x2 i ≠ 0) →
      (volumeConstraint nel x x0 x1 x2 volfrac).2 i = 0) ∧
    ((∀ i, x i = volfrac) → (∀ i, x0 i = 0) → (∀ i, x1 i = 0) →
      (∀ i, x2 i = 0) → 0 < nel →
      (volumeConstraint nel x x0 x1 x2 volfrac).1 = 0) := by
  have hmask : ∀ i,
      x i * (-1 * (x0 i + -1)) * (-1 * (x1 i + -1)) * (-1 * (x2 i + -1)) =
        if x0 i = 0 ∧ x1 i = 0 ∧ x2 i = 0 then x i else 0 := by
    intro i
    by_cases hf : x0 i = 0 ∧ x1 i = 0 ∧ x2 i = 0
    · rw [if_pos hf, hf.1, hf.2.1, hf.2.2]; ring
    · rw [if_neg hf]
      rcases h0 i with e0 | e0
      · rcases h1 i with e1 | e1
        · rcases h2 i with e2 | e2
          · exact absurd ⟨e0, e1, e2⟩ hf
          · rw [e2]; ring
        · rw [e1]; ring
      · rw [e0]; ring
  refine ⟨?_, ?_, ?_, ?_⟩
  · show vecSum nel _ / _ - _ = _
    rw [show vecSum nel (vecPointwiseMult (vecPointwiseMult
        (vecPointwiseMult x (vecScale (-1) (vecShift x0 (-1))))
        (vecScale (-1) (vecShift x1 (-1))))
        (vecScale (-1) (vecShift x2 (-1)))) =
        ∑ i in Finset.range nel,
          if x0 i = 0 ∧ x1 i = 0 ∧ x2 i = 0 then x i else 0 from
      Finset.sum_congr rfl (fun i _ => hmask i)]
  · intro i e0 e1 e2
    show 1 / _ * (-1 * (x0 i + -1)) * (-1 * (x1 i + -1)) *
      (-1 * (x2 i + -1)) = _
    rw [e0, e1, e2]
    ring
  · intro i hne
    show 1 / _ * (-1 * (x0 i + -1)) * (-1 * (x1 i + -1)) *
      (-1 * (x2 i + -1)) = 0
    rcases hne with hne | hne | hne
    · rcases h0 i with e | e
      · exact absurd e hne
      · rw [e]; ring
    · rcases h1 i with e | e
      · exact absurd e hne
      · rw [e]; ring
    · rcases h2 i with e | e
      · exact absurd e hne
      · rw [e]; ring
  · intro hx e0 e1 e2 hpos
    show vecSum nel _ / ((nel : ℚ) - vecSum nel x0 - vecSum nel x1 -
      vecSum nel x2) - volfrac = 0
    have hs0 : vecSum nel x0 = 0 := by
      simp [vecSum, Finset.sum_congr rfl (fun i _ => e0 i)]
    have hs1 : vecSum nel x1 = 0 := by
      simp [vecSum, Finset.sum_congr rfl (fun i _ => e1 i)]
    have hs2 : vecSum nel x2 = 0 := by
      simp [vecSum, Finset.sum_congr rfl (fun i _ => e2 i)]
    have htmp : vecSum nel (vecPointwiseMult (vecPointwiseMult
        (vecPointwiseMult x (vecScale (-1) (vecShift x0 (-1))))
        (vecScale (-1) (vecShift x1 (-1))))
        (vecScale (-1) (vecShift x2 (-1)))) = (nel : ℚ) * volfrac := by
      rw [show vecSum nel (vecPointwiseMult (vecPointwiseMult
          (vecPointwiseMult x (vecScale (-1) (vecShift x0 (-1))))
          (vecScale (-1) (vecShift x1 (-1))))
          (vecScale (-1) (vecShift x2 (-1)))) =
          ∑ _i in Finset.range nel, volfrac from
        Finset.sum_congr rfl (fun i _ => by
          show x i * (-1 * (x0 i + -1)) * (-1 * (x1 i + -1)) *
            (-1 * (x2 i + -1)) = volfrac
          rw [e0 i, e1 i, e2 i, hx i]; ring)]
      rw [Finset.sum_const, Finset.card_range, nsmul_eq_mul]
    rw [htmp, hs0, hs1, hs2]
    have hne : (nel : ℚ) ≠ 0 := Nat.cast_ne_zero.mpr (by omega)
    field_simp

/-- Witness for C5: two free elements at density `= volfrac = 1/2`. -/
theorem C5_volume_constraint_witness :
    ((∀ i : ℕ, (fun _ : ℕ => (0 : ℚ)) i = 0 ∨ (fun _ : ℕ => (0 : ℚ)) i = 1) ∧
      (0 : ℕ) < 2) ∧
    (volumeConstraint 2 (fun _ => 1 / 2) (fun _ => 0) (fun _ => 0)
      (fun _ => 0) (1 / 2)).1 = 0 := by
  refine ⟨⟨fun i => Or.inl rfl, by decide⟩, ?_⟩
  exact (C5_volume_constraint 2 (fun _ => 1 / 2) (fun _ => 0) (fun _ => 0)
    (fun _ => 0) (1 / 2) (fun i => Or.inl rfl) (fun i => Or.inl rfl)
    (fun i => Or.inl rfl)).2.2.2 (fun i => rfl) (fun i => rfl) (fun i => rfl)
    (fun i => rfl) (by decide)

/-! ## Load and boundary-condition setup
(`SetUpLoadAndBC`, default scenario `IMPORT_GEO == 0`; 2-D lines 142-204,
3-D lines 239-403)

The Dirichlet mask `N` is initialised to `1` everywhere; the loop over
coordinate-array entries `i` clamps node `i/2` (2-D; `i/3` in 3-D, sets
`N` to `0`) when `i` is a multiple of the dimension, the node's `y`
coordinate is within `epsi` of the lower extent `xc[2] = 0`, and its
in-face coordinates lie between `3/8` and `5/8` of the corresponding
extents.  The load vector is assembled per element, adding
`LoadIntensity/4` (2-D; `LoadIntensity/8` in 3-D) to each of the
element's node entries with `ADD_VALUES`. -/

/-- Guard of the clamping loop at coordinate-array entry `i` (line 178),
minus the evenness test: the entry pair `(lcoorp i, lcoorp (i+1))` is the
`(x, y)` coordinate of a node on the clamped patch. -/
def clampCond (lcoorp : ℕ → ℚ) (xc1 xc2 epsi : ℚ) (i : ℕ) : Prop :=
  |lcoorp (i + 1) - xc2| < epsi ∧
    xc1 / 8 * 3 ≤ lcoorp i ∧ lcoorp i ≤ xc1 / 8 * 5

instance (lcoorp : ℕ → ℚ) (xc1 xc2 epsi : ℚ) (i : ℕ) :
    Decidable (clampCond lcoorp xc1 xc2 epsi i) := by
  unfold clampCond; infer_instance

/-- The Dirichlet-mask loop (lines 176-181): starting from `VecSet (N, 1)`,
clamp node `i/2` for every even entry index `i` satisfying the geometric
guard. -/
def setupN (nn2 : ℕ) (lcoorp : ℕ → ℚ) (xc1 xc2 epsi : ℚ) : ℕ → ℚ :=
  (List.range nn2).foldl
    (fun N i =>
      if i % 2 = 0 ∧ clampCond lcoorp xc1 xc2 epsi i then
        Function.update N (i / 2) 0
      else N)
    (fun _ => 1)

/-- The body-load loop (lines 192-204): starting from `VecSet (RHS, 0)`,
every element adds `1/4 * LoadIntensity` to each of its four node
entries. -/
def setupRHS (nel : ℕ) (necon : ℕ → ℕ → ℕ) (loadIntensity : ℚ) : ℕ → ℚ :=
  foldAddVec
    (fun i r => ∑ j in Finset.range 4,
      if necon i j = r then 1 / 4 * loadIntensity else 0)
    (List.range nel) (fun _ => 0)

/-- `SetUpLoadAndBC`, 2-D default scenario: `xc[1] = ne[0]*dx`,
`xc[2] = 0`, `epsi = min(dx*0.05, dy*0.05)` (line 143),
`LoadIntensity = 0.001` (line 175). -/
def SetUpLoadAndBC_2D (numNodes nel : ℕ) (necon : ℕ → ℕ → ℕ)
    (lcoorp : ℕ → ℚ) (dx dy : ℚ) (ne0 : ℕ) : ((ℕ → ℚ) × (ℕ → ℚ)) :=
  (setupN (2 * numNodes) lcoorp ((ne0 : ℚ) * dx) 0
      (min (dx * (5 / 100)) (dy * (5 / 100))),
   setupRHS nel necon (1 / 1000))

theorem setupNFold_eval (lcoorp : ℕ → ℚ) (xc1 xc2 epsi : ℚ) (l : List ℕ)
    (N0 : ℕ → ℚ) (n : ℕ) :
    (l.foldl
      (fun N i =>
        if i % 2 = 0 ∧ clampCond lcoorp xc1 xc2 epsi i then
          Function.update N (i / 2) 0
        else N) N0) n =
      if 2 * n ∈ l ∧ clampCond lcoorp xc1 xc2 epsi (2 * n) then 0
      else N0 n := by
  induction l generalizing N0 with
  | nil => simp
  | cons i t ih =>
      rw [List.foldl_cons, ih]
      by_cases hmem : 2 * n ∈ t ∧ clampCond lcoorp xc1 xc2 epsi (2 * n)
      · rw [if_pos hmem, if_pos ⟨List.mem_cons_of_mem i hmem.1, hmem.2⟩]
      · rw [if_neg hmem]
        by_cases hi : i = 2 * n ∧ clampCond lcoorp xc1 xc2 epsi (2 * n)
        · obtain ⟨hieq, hcond⟩ := hi
          subst hieq
          have hg : (2 * n) % 2 = 0 ∧ clampCond lcoorp xc1 xc2 epsi (2 * n) :=
            ⟨by omega, hcond⟩
          have hm : 2 * n ∈ 2 * n :: t ∧
              clampCond lcoorp xc1 xc2 epsi (2 * n) :=
            ⟨List.mem_cons_self _ t, hcond⟩
          rw [if_pos hg, if_pos hm, show 2 * n / 2 = n by omega,
            Function.update_same]
        · have hrfalse :
              ¬(2 * n ∈ i :: t ∧ clampCond lcoorp xc1 xc2 epsi (2 * n)) := by
            rintro ⟨hm, hc⟩
            rcases List.mem_cons.mp hm with he | ht
            · exact hi ⟨he.symm, hc⟩
            · exact hmem ⟨ht, hc⟩
          rw [if_neg hrfalse]
          by_cases hw : i % 2 = 0 ∧ clampCond lcoorp xc1 xc2 epsi i
          · rw [if_pos hw]
            have hne : n ≠ i / 2 := by
              intro he
              apply hi
              have hieq : i = 2 * n := by omega
              exact ⟨hieq, hieq ▸ hw.2⟩
            rw [Function.update_noteq hne]
          · rw [if_neg hw]

theorem setupN_eval (numNodes : ℕ) (lcoorp : ℕ → ℚ) (xc1 xc2 epsi : ℚ)
    (n : ℕ) (hn : n < numNodes) :
    setupN (2 * numNodes) lcoorp xc1 xc2 epsi n =
      if clampCond lcoorp xc1 xc2 epsi (2 * n) then 0 else 1 := by
  rw [setupN, setupNFold_eval]
  have hmem : 2 * n ∈ List.range (2 * numNodes) :=
    List.mem_range.mpr (by omega)
  by_cases hc : clampCond lcoorp xc1 xc2 epsi (2 * n)
  · rw [if_pos ⟨hmem, hc⟩, if_pos hc]
  · rw [if_neg (fun h => hc h.2), if_neg hc]

theorem setupRHS_eval (nel : ℕ) (necon : ℕ → ℕ → ℕ) (loadIntensity : ℚ)
    (r : ℕ) :
    setupRHS nel necon loadIntensity r =
      loadIntensity / 4 *
        (((Finset.range nel ×ˢ Finset.range 4).filter
          (fun p => necon p.1 p.2 = r)).card : ℚ) := by
  rw [setupRHS, foldAddVec_apply, list_range_map_sum]
  have hsum : ∑ i in Finset.range nel, ∑ j in Finset.range 4,
      (if necon i j = r then 1 / 4 * loadIntensity else 0) =
      ∑ p in Finset.range nel ×ˢ Finset.range 4,
        (if necon p.1 p.2 = r then 1 / 4 * loadIntensity else 0) := by
    rw [Finset.sum_product]
  rw [zero_add, hsum, ← Finset.sum_filter, Finset.sum_const, nsmul_eq_mul]
  ring

/-- Guard of the 3-D clamping loop at coordinate-array entry `i`
(lines 379-382), minus the `i % 3 = 0` test: the triple
`(lcoorp i, lcoorp (i+1), lcoorp (i+2))` is the `(x, y, z)` coordinate of
a node on the clamped patch. -/
def clampCond3D (lcoorp : ℕ → ℚ) (xc1 xc2 xc5 epsi : ℚ) (i : ℕ) : Prop :=
  |lcoorp (i + 1) - xc2| < epsi ∧
    (xc1 / 8 * 3 ≤ lcoorp i ∧ lcoorp i ≤ xc1 / 8 * 5) ∧
    (xc5 / 8 * 3 ≤ lcoorp (i + 2) ∧ lcoorp (i + 2) ≤ xc5 / 8 * 5)

instance (lcoorp : ℕ → ℚ) (xc1 xc2 xc5 epsi : ℚ) (i : ℕ) :
    Decidable (clampCond3D lcoorp xc1 xc2 xc5 epsi i) := by
  unfold clampCond3D; infer_instance

/-- The 3-D Dirichlet-mask loop (lines 377-385): starting from
`VecSet (N, 1)`, clamp node `i/3` for every entry index `i` divisible by
`3` satisfying the geometric guard. -/
def setupN3D (nn3 : ℕ) (lcoorp : ℕ → ℚ) (xc1 xc2 xc5 epsi : ℚ) : ℕ → ℚ :=
  (List.range nn3).foldl
    (fun N i =>
      if i % 3 = 0 ∧ clampCond3D lcoorp xc1 xc2 xc5 epsi i then
        Function.update N (i / 3) 0
      else N)
    (fun _ => 1)

/-- The 3-D body-load loop (lines 390-403): starting from
`VecSet (RHS, 0)`, every element adds `1/8 * LoadIntensity` to each of its
eight node entries. -/
def setupRHS3D (nel : ℕ) (necon : ℕ → ℕ → ℕ) (loadIntensity : ℚ) :
    ℕ → ℚ :=
  foldAddVec
    (fun i r => ∑ j in Finset.range 8,
      if necon i j = r then 1 / 8 * loadIntensity else 0)
    (List.range nel) (fun _ => 0)

/-- `SetUpLoadAndBC`, 3-D default scenario: `xc[1] = ne[0]*dx`,
`xc[2] = 0`, `xc[5] = ne[2]*dz`,
`epsi = min(dx*0.05, min(dy*0.05, dz*0.05))` (line 343),
`LoadIntensity = 0.001` (line 376). -/
def SetUpLoadAndBC_3D (numNodes nel : ℕ) (necon : ℕ → ℕ → ℕ)
    (lcoorp : ℕ → ℚ) (dx dy dz : ℚ) (ne0 ne2 : ℕ) :
    ((ℕ → ℚ) × (ℕ → ℚ)) :=
  (setupN3D (3 * numNodes) lcoorp ((ne0 : ℚ) * dx) 0 ((ne2 : ℚ) * dz)
      (min (dx * (5 / 100)) (min (dy * (5 / 100)) (dz * (5 / 100)))),
   setupRHS3D nel necon (1 / 1000))

theorem setupN3DFold_eval (lcoorp : ℕ → ℚ) (xc1 xc2 xc5 epsi : ℚ)
    (l : List ℕ) (N0 : ℕ → ℚ) (n : ℕ) :
    (l.foldl
      (fun N i =>
        if i % 3 = 0 ∧ clampCond3D lcoorp xc1 xc2 xc5 epsi i then
          Function.update N (i / 3) 0
        else N) N0) n =
      if 3 * n ∈ l ∧ clampCond3D lcoorp xc1 xc2 xc5 epsi (3 * n) then 0
      else N0 n := by
  induction l generalizing N0 with
  | nil => simp
  | cons i t ih =>
      rw [List.foldl_cons, ih]
      by_cases hmem : 3 * n ∈ t ∧ clampCond3D lcoorp xc1 xc2 xc5 epsi (3 * n)
      · rw [if_pos hmem, if_pos ⟨List.mem_cons_of_mem i hmem.1, hmem.2⟩]
      · rw [if_neg hmem]
        by_cases hi : i = 3 * n ∧ clampCond3D lcoorp xc1 xc2 xc5 epsi (3 * n)
        · obtain ⟨hieq, hcond⟩ := hi
          subst hieq
          have hg : (3 * n) % 3 = 0 ∧
              clampCond3D lcoorp xc1 xc2 xc5 epsi (3 * n) :=
            ⟨by omega, hcond⟩
          have hm : 3 * n ∈ 3 * n :: t ∧
              clampCond3D lcoorp xc1 xc2 xc5 epsi (3 * n) :=
            ⟨List.mem_cons_self _ t, hcond⟩
          rw [if_pos hg, if_pos hm, show 3 * n / 3 = n by omega,
            Function.update_same]
        · have hrfalse :
              ¬(3 * n ∈ i :: t ∧
                clampCond3D lcoorp xc1 xc2 xc5 epsi (3 * n)) := by
            rintro ⟨hm, hc⟩
            rcases List.mem_cons.mp hm with he | ht
            · exact hi ⟨he.symm, hc⟩
            · exact hmem ⟨ht, hc⟩
          rw [if_neg hrfalse]
          by_cases hw : i % 3 = 0 ∧ clampCond3D lcoorp xc1 xc2 xc5 epsi i
          · rw [if_pos hw]
            have hne : n ≠ i / 3 := by
              intro he
              apply hi
              have hieq : i = 3 * n := by omega
              exact ⟨hieq, hieq ▸ hw.2⟩
            rw [Function.update_noteq hne]
          · rw [if_neg hw]

theorem setupN3D_eval (numNodes : ℕ) (lcoorp : ℕ → ℚ)
    (xc1 xc2 xc5 epsi : ℚ) (n : ℕ) (hn : n < numNodes) :
    setupN3D (3 * numNodes) lcoorp xc1 xc2 xc5 epsi n =
      if clampCond3D lcoorp xc1 xc2 xc5 epsi (3 * n) then 0 else 1 := by
  rw [setupN3D, setupN3DFold_eval]
  have hmem : 3 * n ∈ List.range (3 * numNodes) :=
    List.mem_range.mpr (by omega)
  by_cases hc : clampCond3D lcoorp xc1 xc2 xc5 epsi (3 * n)
  · rw [if_pos ⟨hmem, hc⟩, if_pos hc]
  · rw [if_neg (fun h => hc h.2), if_neg hc]

theorem setupRHS3D_eval (nel : ℕ) (necon : ℕ → ℕ → ℕ) (loadIntensity : ℚ)
    (r : ℕ) :
    setupRHS3D nel necon loadIntensity r =
      loadIntensity / 8 *
        (((Finset.range nel ×ˢ Finset.range 8).filter
          (fun p => necon p.1 p.2 = r)).card : ℚ) := by
  rw [setupRHS3D, foldAddVec_apply, list_range_map_sum]
  have hsum : ∑ i in Finset.range nel, ∑ j in Finset.range 8,
      (if necon i j = r then 1 / 8 * loadIntensity else 0) =
      ∑ p in Finset.range nel ×ˢ Finset.range 8,
        (if necon p.1 p.2 = r then 1 / 8 * loadIntensity else 0) := by
    rw [Finset.sum_product]
  rw [zero_add, hsum, ← Finset.sum_filter, Finset.sum_const, nsmul_eq_mul]
  ring

/-- C7: in the default scenario, the Dirichlet mask is `0` exactly at the
nodes whose `y` coordinate is within `epsilon = 5%` of the smallest
element edge length of the lower extent `0` and whose in-face coordinates
lie between `3/8` and `5/8` of the corresponding extents (`ne0*dx`, and in
3-D also `ne2*dz` for `z`), and `1` at every other node; and the load
vector holds, at every node, `LoadIntensity/4` (2-D; `LoadIntensity/8` in
3-D) with `LoadIntensity = 0.001` times the number of element-local
entries referencing that node (the equal-share sum over adjacent
elements). -/
theorem C7_default_load_and_bc (numNodes nel : ℕ) (necon : ℕ → ℕ → ℕ)
    (lcoorp : ℕ → ℚ) (dx dy : ℚ) (ne0 : ℕ) (n r : ℕ) (hn : n < numNodes)
    (numNodes3 nel3 : ℕ) (necon3 : ℕ → ℕ → ℕ) (lcoorp3 : ℕ → ℚ)
    (dx3 dy3 dz3 : ℚ) (ne03 ne23 : ℕ) (m r3 : ℕ) (hm : m < numNodes3) :
    ((SetUpLoadAndBC_2D numNodes nel necon lcoorp dx dy ne0).1 n =
      if |lcoorp (2 * n + 1) - 0| < min dx dy * (5 / 100) ∧
          3 / 8 * ((ne0 : ℚ) * dx) ≤ lcoorp (2 * n) ∧
          lcoorp (2 * n) ≤ 5 / 8 * ((ne0 : ℚ) * dx) then 0 else 1) ∧
    ((SetUpLoadAndBC_2D numNodes nel necon lcoorp dx dy ne0).2 r =
      (1 / 1000 : ℚ) / 4 *
        (((Finset.range nel ×ˢ Finset.range 4).filter
          (fun p => necon p.1 p.2 = r)).card : ℚ)) ∧
    ((SetUpLoadAndBC_3D numNodes3 nel3 necon3 lcoorp3 dx3 dy3 dz3 ne03
        ne23).1 m =
      if |lcoorp3 (3 * m + 1) - 0| < min dx3 (min dy3 dz3) * (5 / 100) ∧
          (3 / 8 * ((ne03 : ℚ) * dx3) ≤ lcoorp3 (3 * m) ∧
            lcoorp3 (3 * m) ≤ 5 / 8 * ((ne03 : ℚ) * dx3)) ∧
          (3 / 8 * ((ne23 : ℚ) * dz3) ≤ lcoorp3 (3 * m + 2) ∧
            lcoorp3 (3 * m + 2) ≤ 5 / 8 * ((ne23 : ℚ) * dz3))
        then 0 else 1) ∧
    ((SetUpLoadAndBC_3D numNodes3 nel3 necon3 lcoorp3 dx3 dy3 dz3 ne03
        ne23).2 r3 =
      (1 / 1000 : ℚ) / 8 *
        (((Finset.range nel3 ×ˢ Finset.range 8).filter
          (fun p => necon3 p.1 p.2 = r3)).card : ℚ)) := by
  refine ⟨?_, setupRHS_eval nel necon (1 / 1000) r, ?_,
    setupRHS3D_eval nel3 necon3 (1 / 1000) r3⟩
  · show setupN (2 * numNodes) lcoorp ((ne0 : ℚ) * dx) 0
        (min (dx * (5 / 100)) (dy * (5 / 100))) n = _
    rw [setupN_eval numNodes lcoorp _ _ _ n hn]
    apply if_congr _ rfl rfl
    unfold clampCond
    rw [min_mul_of_nonneg dx dy (by norm_num : (0 : ℚ) ≤ 5 / 100)]
    constructor
    · rintro ⟨h1, h2, h3⟩
      exact ⟨h1, by linarith, by linarith⟩
    · rintro ⟨h1, h2, h3⟩
      exact ⟨h1, by linarith, by linarith⟩
  · show setupN3D (3 * numNodes3) lcoorp3 ((ne03 : ℚ) * dx3) 0
        ((ne23 : ℚ) * dz3)
        (min (dx3 * (5 / 100)) (min (dy3 * (5 / 100)) (dz3 * (5 / 100)))) m
        = _
    rw [setupN3D_eval numNodes3 lcoorp3 _ _ _ _ m hm]
    apply if_congr _ rfl rfl
    unfold clampCond3D
    rw [min_mul_of_nonneg dx3 (min dy3 dz3) (by norm_num : (0 : ℚ) ≤ 5 / 100),
      min_mul_of_nonneg dy3 dz3 (by norm_num : (0 : ℚ) ≤ 5 / 100)]
    constructor
    · rintro ⟨h1, ⟨h2, h3⟩, h4, h5⟩
      exact ⟨h1, ⟨by linarith, by linarith⟩, by linarith, by linarith⟩
    · rintro ⟨h1, ⟨h2, h3⟩, h4, h5⟩
      exact ⟨h1, ⟨by linarith, by linarith⟩, by linarith, by linarith⟩

/-- Witness for C7: a 1-element unit-square mesh (4 nodes, `dx = dy = 1`)
and a 1-element unit-cube mesh (8 nodes, `dx = dy = dz = 1`); in both, the
node at the origin lies outside the clamped band `[3/8, 5/8]`, so its mask
entry is `1`, and it belongs to exactly one element, so its load entry is
`0.001/4` resp. `0.001/8`. -/
theorem C7_default_load_and_bc_witness :
    (0 < 4 ∧
      (SetUpLoadAndBC_2D 4 1
        (fun _ j => j)
        (fun i => if i = 2 then 1 else if i = 5 then 1 else
          if i = 6 then 1 else if i = 7 then 1 else 0)
        1 1 1).1 0 = 1) ∧
    ((SetUpLoadAndBC_2D 4 1
        (fun _ j => j)
        (fun i => if i = 2 then 1 else if i = 5 then 1 else
          if i = 6 then 1 else if i = 7 then 1 else 0)
        1 1 1).2 0 = (1 / 1000 : ℚ) / 4) ∧
    (0 < 8 ∧
      (SetUpLoadAndBC_3D 8 1 (fun _ j => j) (fun _ => 0)
        1 1 1 1 1).1 0 = 1) ∧
    ((SetUpLoadAndBC_3D 8 1 (fun _ j => j) (fun _ => 0)
        1 1 1 1 1).2 0 = (1 / 1000 : ℚ) / 8) := by
  have h := C7_default_load_and_bc 4 1 (fun _ j => j)
    (fun i => if i = 2 then 1 else if i = 5 then 1 else
      if i = 6 then 1 else if i = 7 then 1 else 0)
    1 1 1 0 0 (by decide)
    8 1 (fun _ j => j) (fun _ => 0) 1 1 1 1 1 0 0 (by decide)
  refine ⟨⟨by decide, ?_⟩, ?_, ⟨by decide, ?_⟩, ?_⟩
  · rw [h.1, if_neg]
    rintro ⟨-, h2, -⟩
    norm_num at h2
  · rw [h.2.1]
    rw [show ((Finset.range 1 ×ˢ Finset.range 4).filter
      (fun p => (fun (_ j : ℕ) => j) p.1 p.2 = 0)).card = 1 from by decide]
    norm_num
  · rw [h.2.2.1, if_neg]
    rintro ⟨-, ⟨h2, -⟩, -⟩
    norm_num at h2
  · rw [h.2.2.2]
    rw [show ((Finset.range 1 ×ˢ Finset.range 8).filter
      (fun p => (fun (_ j : ℕ) => j) p.1 p.2 = 0)).card = 1 from by decide]
    norm_num

/-! ## Solver configuration (`SetUpSolver`, lines 751-1002)

Only the configuration handed to the external Krylov/multigrid library is
in scope.  A solver object is modelled as a record of the settings the
code passes to it; `PETSC_DEFAULT` arguments of `KSPSetTolerances` leave
the corresponding stored setting unchanged, which we model with `none`
arguments.  The embedding follows the default path: no command-line
overrides, `PCMG` retained as preconditioner. -/

/-- The settings of one Krylov solver object as configured by the code. -/
structure KSPSettings where
  ktype : String
  gmresRestart : Option ℕ
  rtol : Option ℚ
  atol : Option ℚ
  dtol : Option ℚ
  maxits : Option ℕ
  guessNonzero : Bool
  pctype : String

/-- `KSPCreate`: a fresh solver with no settings applied yet. -/
def kspCreate : KSPSettings := ⟨"", none, none, none, none, none, false, ""⟩

/-- `KSPSetType`. -/
def kspSetType (s : KSPSettings) (t : String) : KSPSettings :=
  ⟨t, s.gmresRestart, s.rtol, s.atol, s.dtol, s.maxits, s.guessNonzero,
   s.pctype⟩

/-- `KSPGMRESSetRestart`. -/
def kspGMRESSetRestart (s : KSPSettings) (r : ℕ) : KSPSettings :=
  ⟨s.ktype, some r, s.rtol, s.atol, s.dtol, s.maxits, s.guessNonzero,
   s.pctype⟩

/-- A `PETSC_DEFAULT`-aware argument: `some v` stores `v`, `none`
(`PETSC_DEFAULT`) keeps the previous setting. -/
def petscArg {α : Type} (v old : Option α) : Option α :=
  match v with
  | some w => some w
  | none => old

/-- `KSPSetTolerances (rtol, atol, dtol, maxits)`. -/
def kspSetTolerances (s : KSPSettings) (rt ab dv : Option ℚ)
    (mi : Option ℕ) : KSPSettings :=
  ⟨s.ktype, s.gmresRestart, petscArg rt s.rtol, petscArg ab s.atol,
   petscArg dv s.dtol, petscArg mi s.maxits, s.guessNonzero, s.pctype⟩

/-- `KSPSetInitialGuessNonzero`. -/
def kspSetInitialGuessNonzero (s : KSPSettings) (b : Bool) : KSPSettings :=
  ⟨s.ktype, s.gmresRestart, s.rtol, s.atol, s.dtol, s.maxits, b, s.pctype⟩

/-- `PCSetType` on the solver's preconditioner. -/
def pcSetType (s : KSPSettings) (t : String) : KSPSettings :=
  ⟨s.ktype, s.gmresRestart, s.rtol, s.atol, s.dtol, s.maxits,
   s.guessNonzero, t⟩

/-- The fine-grid solver configuration applied by `SetUpSolver` with no
option overrides (lines 821-861): `KSPFGMRES`, restart `100`, tolerances
`(1e-5, 1e-50, 1e5)`, `200` max iterations, nonzero initial guess, `PCMG`
preconditioner. -/
def setUpSolverMain : KSPSettings :=
  pcSetType
    (kspSetInitialGuessNonzero
      (kspSetTolerances
        (kspGMRESSetRestart (kspSetType kspCreate "fgmres") 100)
        (some (1 / 10 ^ 5)) (some (1 / 10 ^ 50)) (some (10 ^ 5)) (some 200))
      true)
    "mg"

/-- The coarse-grid solver configuration (lines 930-945): `KSPGMRES`,
restart `30`, tolerances `(1e-8, 1e-50, 1e5)`, `30` max iterations, `SOR`
preconditioner. -/
def setUpSolverCoarse : KSPSettings :=
  pcSetType
    (kspSetTolerances
      (kspGMRESSetRestart (kspSetType kspCreate "gmres") 30)
      (some (1 / 10 ^ 8)) (some (1 / 10 ^ 50)) (some (10 ^ 5)) (some 30))
    "sor"

/-- The smoother configuration applied identically on every level
`1 ≤ k < nlvls` (lines 947-960): `KSPGMRES`, restart `smooth_sweeps = 4`,
`KSPSetTolerances (PETSC_DEFAULT, PETSC_DEFAULT, PETSC_DEFAULT, 4)`, `SOR`
preconditioner. -/
def setUpSolverSmoother : KSPSettings :=
  pcSetType
    (kspSetTolerances
      (kspGMRESSetRestart (kspSetType kspCreate "gmres") 4)
      none none none (some 4))
    "sor"

/-- C8: with no option overrides, the main Krylov solver has restart
length `100`, relative tolerance `1e-5`, absolute tolerance `1e-50`,
divergence tolerance `1e5`, at most `200` iterations and a nonzero initial
guess; the coarse-grid solver has relative tolerance `1e-8` and at most
`30` iterations; and every per-level smoother is limited to `4` sweeps
(`maxits = 4` and GMRES restart `4`) with no convergence tolerance of its
own ever configured (all three tolerance arguments left at
`PETSC_DEFAULT`). -/
theorem C8_solver_configuration_defaults :
    setUpSolverMain.gmresRestart = some 100 ∧
    setUpSolverMain.rtol = some (1 / 10 ^ 5) ∧
    setUpSolverMain.atol = some (1 / 10 ^ 50) ∧
    setUpSolverMain.dtol = some (10 ^ 5) ∧
    setUpSolverMain.maxits = some 200 ∧
    setUpSolverMain.guessNonzero = true ∧
    setUpSolverCoarse.rtol = some (1 / 10 ^ 8) ∧
    setUpSolverCoarse.maxits = some 30 ∧
    setUpSolverSmoother.maxits = some 4 ∧
    setUpSolverSmoother.gmresRestart = some 4 ∧
    setUpSolverSmoother.rtol = none ∧
    setUpSolverSmoother.atol = none ∧
    setUpSolverSmoother.dtol = none :=
  ⟨rfl, rfl, rfl, rfl, rfl, rfl, rfl, rfl, rfl, rfl, rfl, rfl, rfl⟩

/-! ## Restart checkpoint files (`WriteRestartFiles`, lines 642-675, and
the restart setup in `SetUpSolver`, lines 756-778) -/

/-- The restart-related state of the object: the `-restart` flag, the
double-buffer flip flag and the two checkpoint file names. -/
structure RestartCtx where
  restart : Bool
  flip : Bool
  filename00 : String
  filename01 : String

/-- The restart state established by `SetUpSolver` on the default path:
`restart = PETSC_TRUE`, `flip = PETSC_TRUE`, and the two file names
`workdir/RestartSol00.dat`, `workdir/RestartSol01.dat`. -/
def setUpSolverRestartCtx (workdir : String) : RestartCtx :=
  ⟨true, true, workdir ++ "/RestartSol00.dat", workdir ++ "/RestartSol01.dat"⟩

/-- `WriteRestartFiles`: fail if restart is disabled; otherwise toggle the
flip flag first, then write the temperature field to `filename00` when the
new flip value is false and to `filename01` when it is true.  Returns the
updated state and the file written. -/
def WriteRestartFiles (s : RestartCtx) : Option (RestartCtx × String) :=
  if s.restart = false then none
  else
    some (⟨s.restart, !s.flip, s.filename00, s.filename01⟩,
      if (!(!s.flip)) = true then s.filename00 else s.filename01)

/-- C9: with restart enabled and distinct checkpoint file names, two
consecutive calls of `WriteRestartFiles` both succeed, the flip flag is
toggled at the start of each call, the target is chosen by the new flip
value, and the two calls write to different files, alternating between the
two checkpoint files. -/
theorem C9_consecutive_writes_alternate (s : RestartCtx)
    (h : s.restart = true) (hne : s.filename00 ≠ s.filename01) :
    ∃ s1 t1 s2 t2,
      WriteRestartFiles s = some (s1, t1) ∧
      WriteRestartFiles s1 = some (s2, t2) ∧
      s1.flip = (!s.flip) ∧
      t1 = (if (!s1.flip) = true then s.filename00 else s.filename01) ∧
      t1 ≠ t2 ∧
      ((t1 = s.filename00 ∧ t2 = s.filename01) ∨
        (t1 = s.filename01 ∧ t2 = s.filename00)) := by
  obtain ⟨r, f, a, b⟩ := s
  cases r
  · exact absurd h (by simp)
  · cases f
    · exact ⟨⟨true, true, a, b⟩, b, ⟨true, false, a, b⟩, a, rfl, rfl, rfl,
        rfl, Ne.symm hne, Or.inr ⟨rfl, rfl⟩⟩
    · exact ⟨⟨true, false, a, b⟩, a, ⟨true, true, a, b⟩, b, rfl, rfl, rfl,
        rfl, hne, Or.inl ⟨rfl, rfl⟩⟩

/-- Witness for C9 at the state `SetUpSolver` leaves behind with working
directory `./`: the two checkpoint files differ and consecutive writes
alternate between them. -/
theorem C9_consecutive_writes_alternate_witness :
    (setUpSolverRestartCtx "./").restart = true ∧
    (setUpSolverRestartCtx "./").filename00 ≠
      (setUpSolverRestartCtx "./").filename01 ∧
    (∃ s1 t1 s2 t2,
      WriteRestartFiles (setUpSolverRestartCtx "./") = some (s1, t1) ∧
      WriteRestartFiles s1 = some (s2, t2) ∧
      s1.flip = (!(setUpSolverRestartCtx "./").flip) ∧
      t1 = (if (!s1.flip) = true then (setUpSolverRestartCtx "./").filename00
        else (setUpSolverRestartCtx "./").filename01) ∧
      t1 ≠ t2 ∧
      ((t1 = (setUpSolverRestartCtx "./").filename00 ∧
          t2 = (setUpSolverRestartCtx "./").filename01) ∨
        (t1 = (setUpSolverRestartCtx "./").filename01 ∧
          t2 = (setUpSolverRestartCtx "./").filename00))) :=
  ⟨rfl, by decide,
    C9_consecutive_writes_alternate (setUpSolverRestartCtx "./") rfl
      (by decide)⟩

/-! ## Element kernel
(`Quad4Isoparametric`, lines 1050-1169; `Hex8Isoparametric`,
lines 1261-1396; shape-function derivatives, `Inverse2M`/`Inverse3M`,
`Dot`)

The per-Gauss-point computation — shape-function derivatives, Jacobian
from dot products with the coordinate vectors, closed-form inversion,
strain-displacement operator `B` assembled from inverse-Jacobian columns
times the derivative rows, and the `weight * B^T * kcond * B` increment —
is embedded once; the quadruple accumulation loops of the source add, per
Gauss point, exactly the total of that increment to each entry, starting
from a `memset`-zeroed output matrix. -/

/-- `Dot` (lines 1451-1460): dot product of two length-`n` vectors. -/
def Dot {n : ℕ} (v1 v2 : Fin n → ℚ) : ℚ := ∑ i, v1 i * v2 i

/-- The Gauss abscissa written in the source (lines 1100, 1313):
`0.577350269189626`. -/
def gaussGP : ℚ := 577350269189626 / 1000000000000000

/-- The Gauss abscissa stated by the specification text:
`0.57735026918963` (one digit shorter, and a different rational). -/
def specClaimGP : ℚ := 57735026918963 / 100000000000000

/-- Per-axis Gauss points and weights (lines 1100-1107): full integration
uses the two points `±gaussGP` with weight `1`; reduced integration
replaces them by the single point `0` with weight `2`. -/
def gaussPW (redInt : Bool) : List (ℚ × ℚ) :=
  if redInt then [(0, 2)] else [(-gaussGP, 1), (gaussGP, 1)]

/-- The per-axis Gauss rule as the specification words it, parameterized
by the abscissa `g`: two points `±g` with weight `1`, or the single point
`0` with weight `2` when reduced integration is selected. -/
def specGaussPW (g : ℚ) (redInt : Bool) : List (ℚ × ℚ) :=
  if redInt then [(0, 2)] else [(-g, 1), (g, 1)]

/-- `DifferentiatedShapeFunctions_2D`, xi derivatives (lines 1176-1179). -/
def dNdxi2 (_xi eta : ℚ) : Fin 4 → ℚ :=
  ![-(1 / 4) * (1 - eta), (1 / 4) * (1 - eta),
    (1 / 4) * (1 + eta), -(1 / 4) * (1 + eta)]

/-- `DifferentiatedShapeFunctions_2D`, eta derivatives (lines 1181-1184). -/
def dNdeta2 (xi _eta : ℚ) : Fin 4 → ℚ :=
  ![-(1 / 4) * (1 - xi), -(1 / 4) * (1 + xi),
    (1 / 4) * (1 + xi), (1 / 4) * (1 - xi)]

/-- `Inverse2M` (lines 1187-1196): determinant and closed-form inverse of
a 2x2 matrix. -/
def Inverse2M (J : Fin 2 → Fin 2 → ℚ) : ℚ × (Fin 2 → Fin 2 → ℚ) :=
  (J 0 0 * J 1 1 - J 0 1 * J 1 0,
   ![![J 1 1 / (J 0 0 * J 1 1 - J 0 1 * J 1 0),
      -J 0 1 / (J 0 0 * J 1 1 - J 0 1 * J 1 0)],
     ![-J 1 0 / (J 0 0 * J 1 1 - J 0 1 * J 1 0),
      J 0 0 / (J 0 0 * J 1 1 - J 0 1 * J 1 0)]])

/-- The unit thermal-conductivity tensor `kcond` (line 1097). -/
def kcond2 : Fin 2 → Fin 2 → ℚ := fun k l => if k = l then 1 else 0

/-- Contribution of one Gauss point pair `((xi, wi), (eta, wj))` to the
Quad4 element matrix (lines 1120-1165): Jacobian from dot products of the
derivative rows with the coordinate vectors, closed-form inverse, `B` from
inverse-Jacobian columns times the derivative rows, and the increment
`weight * B^T * kcond * B` with `weight = wi * wj * det J`. -/
def quad4GPContrib (X Y : Fin 4 → ℚ) (p : ((ℚ × ℚ) × (ℚ × ℚ))) :
    Fin 4 → Fin 4 → ℚ :=
  let xi := p.1.1
  let eta := p.2.1
  let dxi := dNdxi2 xi eta
  let deta := dNdeta2 xi eta
  let inv := Inverse2M ![![Dot dxi X, Dot dxi Y], ![Dot deta X, Dot deta Y]]
  let weight := p.1.2 * p.2.2 * inv.1
  let B : Fin 2 → Fin 4 → ℚ := fun i j => inv.2 i 0 * dxi j + inv.2 i 1 * deta j
  fun i j => weight * ∑ k, ∑ l, B k i * kcond2 k l * B l j

/-- `Quad4Isoparametric` (lines 1050-1169): iterate over the Gauss point
pairs (`ii` outer, `jj` inner) and accumulate each point's contribution
into the `memset`-zeroed output matrix. -/
def Quad4Isoparametric (X Y : Fin 4 → ℚ) (redInt : Bool) :
    Fin 4 → Fin 4 → ℚ :=
  foldAddMat (quad4GPContrib X Y)
    ((gaussPW redInt).flatMap (fun a => (gaussPW redInt).map (fun b => (a, b))))
    (fun _ _ => 0)

/-- The Quad4 algorithm as the specification describes it, parameterized
by the per-axis Gauss abscissa `g`: the sum over Gauss points of
`weight * B^T * kcond * B`. -/
def Quad4SpecQuadrature (g : ℚ) (X Y : Fin 4 → ℚ) (redInt : Bool) :
    Fin 4 → Fin 4 → ℚ :=
  fun i j =>
    (((specGaussPW g redInt).flatMap
        (fun a => (specGaussPW g redInt).map (fun b => (a, b)))).map
      (fun p => quad4GPContrib X Y p i j)).sum

/-- `DifferentiatedShapeFunctions`, xi derivatives (lines 1404-1411). -/
def dNdxi3 (_xi eta zeta : ℚ) : Fin 8 → ℚ :=
  ![-(1 / 8) * (1 - eta) * (1 - zeta), (1 / 8) * (1 - eta) * (1 - zeta),
    (1 / 8) * (1 + eta) * (1 - zeta), -(1 / 8) * (1 + eta) * (1 - zeta),
    -(1 / 8) * (1 - eta) * (1 + zeta), (1 / 8) * (1 - eta) * (1 + zeta),
    (1 / 8) * (1 + eta) * (1 + zeta), -(1 / 8) * (1 + eta) * (1 + zeta)]

/-- `DifferentiatedShapeFunctions`, eta derivatives (lines 1413-1420). -/
def dNdeta3 (xi _eta zeta : ℚ) : Fin 8 → ℚ :=
  ![-(1 / 8) * (1 - xi) * (1 - zeta), -(1 / 8) * (1 + xi) * (1 - zeta),
    (1 / 8) * (1 + xi) * (1 - zeta), (1 / 8) * (1 - xi) * (1 - zeta),
    -(1 / 8) * (1 - xi) * (1 + zeta), -(1 / 8) * (1 + xi) * (1 + zeta),
    (1 / 8) * (1 + xi) * (1 + zeta), (1 / 8) * (1 - xi) * (1 + zeta)]

/-- `DifferentiatedShapeFunctions`, zeta derivatives (lines 1422-1429). -/
def dNdzeta3 (xi eta _zeta : ℚ) : Fin 8 → ℚ :=
  ![-(1 / 8) * (1 - xi) * (1 - eta), -(1 / 8) * (1 + xi) * (1 - eta),
    -(1 / 8) * (1 + xi) * (1 + eta), -(1 / 8) * (1 - xi) * (1 + eta),
    (1 / 8) * (1 - xi) * (1 - eta), (1 / 8) * (1 + xi) * (1 - eta),
    (1 / 8) * (1 + xi) * (1 + eta), (1 / 8) * (1 - xi) * (1 + eta)]

/-- `Inverse3M` (lines 1432-1448): determinant and adjugate-based inverse
of a 3x3 matrix. -/
def Inverse3M (J : Fin 3 → Fin 3 → ℚ) : ℚ × (Fin 3 → Fin 3 → ℚ) :=
  let detJ := J 0 0 * (J 1 1 * J 2 2 - J 2 1 * J 1 2)
    - J 0 1 * (J 1 0 * J 2 2 - J 2 0 * J 1 2)
    + J 0 2 * (J 1 0 * J 2 1 - J 2 0 * J 1 1)
  (detJ,
   ![![(J 1 1 * J 2 2 - J 2 1 * J 1 2) / detJ,
      -(J 0 1 * J 2 2 - J 0 2 * J 2 1) / detJ,
      (J 0 1 * J 1 2 - J 0 2 * J 1 1) / detJ],
     ![-(J 1 0 * J 2 2 - J 1 2 * J 2 0) / detJ,
      (J 0 0 * J 2 2 - J 0 2 * J 2 0) / detJ,
      -(J 0 0 * J 1 2 - J 0 2 * J 1 0) / detJ],
     ![(J 1 0 * J 2 1 - J 1 1 * J 2 0) / detJ,
      -(J 0 0 * J 2 1 - J 0 1 * J 2 0) / detJ,
      (J 0 0 * J 1 1 - J 1 0 * J 0 1) / detJ]])

/-- The unit thermal-conductivity tensor in 3-D (line 1310). -/
def kcond3 : Fin 3 → Fin 3 → ℚ := fun k l => if k = l then 1 else 0

/-- Contribution of one Gauss point triple to the Hex8 element matrix
(lines 1336-1391). -/
def hex8GPContrib (X Y Z : Fin 8 → ℚ)
    (p : ((ℚ × ℚ) × (ℚ × ℚ) × (ℚ × ℚ))) : Fin 8 → Fin 8 → ℚ :=
  let xi := p.1.1
  let eta := p.2.1.1
  let zeta := p.2.2.1
  let dxi := dNdxi3 xi eta zeta
  let deta := dNdeta3 xi eta zeta
  let dzeta := dNdzeta3 xi eta zeta
  let inv := Inverse3M
    ![![Dot dxi X, Dot dxi Y, Dot dxi Z],
      ![Dot deta X, Dot deta Y, Dot deta Z],
      ![Dot dzeta X, Dot dzeta Y, Dot dzeta Z]]
  let weight := p.1.2 * p.2.1.2 * p.2.2.2 * inv.1
  let B : Fin 3 → Fin 8 → ℚ := fun i j =>
    inv.2 i 0 * dxi j + inv.2 i 1 * deta j + inv.2 i 2 * dzeta j
  fun i j => weight * ∑ k, ∑ l, B k i * kcond3 k l * B l j

/-- `Hex8Isoparametric` (lines 1261-1396): iterate over the Gauss point
triples (`ii`, `jj`, `kk` from outer to inner) and accumulate each point's
contribution into the `memset`-zeroed output matrix. -/
def Hex8Isoparametric (X Y Z : Fin 8 → ℚ) (redInt : Bool) :
    Fin 8 → Fin 8 → ℚ :=
  foldAddMat (hex8GPContrib X Y Z)
    ((gaussPW redInt).flatMap (fun a => (gaussPW redInt).flatMap
      (fun b => (gaussPW redInt).map (fun c => (a, b, c)))))
    (fun _ _ => 0)

/-- The Hex8 algorithm as the specification describes it, parameterized by
the per-axis Gauss abscissa `g`. -/
def Hex8SpecQuadrature (g : ℚ) (X Y Z : Fin 8 → ℚ) (redInt : Bool) :
    Fin 8 → Fin 8 → ℚ :=
  fun i j =>
    (((specGaussPW g redInt).flatMap (fun a => (specGaussPW g redInt).flatMap
        (fun b => (specGaussPW g redInt).map (fun c => (a, b, c))))).map
      (fun p => hex8GPContrib X Y Z p i j)).sum

/-- C6, counterexample to the claim as stated: on the unit square, entry
`(0, 0)` of the element matrix computed by the code differs from the same
quadrature algorithm run with the Gauss abscissa `±0.57735026918963`
printed in the specification — the code's abscissa is
`±0.577350269189626`, a different rational, and the quadrature result
depends on it. -/
theorem C6_gauss_abscissa_counterexample :
    Quad4Isoparametric ![0, 1, 1, 0] ![0, 0, 1, 1] false 0 0 ≠
      Quad4SpecQuadrature specClaimGP ![0, 1, 1, 0] ![0, 0, 1, 1] false
        0 0 := by
  norm_num [Quad4Isoparametric, Quad4SpecQuadrature, foldAddMat, gaussPW,
    specGaussPW, quad4GPContrib, Inverse2M, Dot, dNdxi2, dNdeta2, kcond2,
    gaussGP, specClaimGP, Fin.sum_univ_two, Fin.sum_univ_four,
    Matrix.cons_val_zero, Matrix.cons_val_one, Matrix.head_cons,
    Matrix.cons_val_two, Matrix.cons_val_three, Matrix.tail_cons]

/-- C6 amended: `Quad4Isoparametric` (and `Hex8Isoparametric` in 3-D)
computes the element matrix by iterating over Gauss points at coordinates
`±0.577350269189626` with weight `1` per axis in full integration, or the
single point `0` with weight `2` per axis in reduced integration, forming
at each point the Jacobian as dot products of the shape-function
local-derivative rows with the coordinate vectors, inverting it in closed
form, building `B` from inverse-Jacobian columns times the derivatives,
and accumulating `weight * B^T * kcond * B` with
`weight = (product of quadrature weights) * det J`, starting from a zeroed
output matrix: the accumulated result equals the Gauss-quadrature sum of
exactly those per-point contributions. -/
theorem C6_element_matrices_by_gauss_quadrature :
    (∀ (X Y : Fin 4 → ℚ) (redInt : Bool) (i j : Fin 4),
      Quad4Isoparametric X Y redInt i j =
        Quad4SpecQuadrature gaussGP X Y redInt i j) ∧
    (∀ (X Y Z : Fin 8 → ℚ) (redInt : Bool) (i j : Fin 8),
      Hex8Isoparametric X Y Z redInt i j =
        Hex8SpecQuadrature gaussGP X Y Z redInt i j) := by
  constructor
  · intro X Y redInt i j
    rw [Quad4Isoparametric, foldAddMat_apply]
    show 0 + _ = _
    rw [zero_add]
    rfl
  · intro X Y Z redInt i j
    rw [Hex8Isoparametric, foldAddMat_apply]
    show 0 + _ = _
    rw [zero_add]
    rfl

end LinearHeatConductionModel
